import Mathlib

/-!
Verification of the image_server lifecycle engine.

Shallow embedding of the core of the `image_server` repository
(`src/image_format.rs`, `src/database.rs`, `src/transcode.rs`, `src/api.rs`)
and proofs about the claims of its specification.

Modelling conventions:
* `chrono::DateTime<Utc>` instants and `chrono::Duration` durations are both
  modelled as `Int` (a point / a number of time units on one global clock).
* `Uuid` identifiers are modelled as `Nat`.
* Database rows of the single `images` table are modelled as a `List DbRow`.
* Fallible effects (the SQL layer, the filesystem, the codec) are modelled by
  explicit outcome parameters; a Rust `panic!` / `.expect(..)` / `.unwrap()`
  on the path being modelled is an `Option.none` result.
-/

/-! ## Format registry (`src/image_format.rs`)

The Rust `ImageFormat` is a transparent newtype over `image::ImageFormat`;
we inline the wrapper and enumerate the variants of the wrapped enum of the
`image` crate (the five the server names, plus the remaining variants that
the catch-all arm of `to_str` maps to `"unkw"`). -/

inductive ImageFormat where
  | png
  | jpeg
  | gif
  | webp
  | pnm
  | tiff
  | tga
  | dds
  | bmp
  | ico
  | hdr
  | openExr
  | farbfeld
  | avif
  | qoi
  | pcx
deriving DecidableEq, Repr

/-- The Rust `ImageFormat::from_str`: the match over the six accepted tag
strings (`"jpg"` and `"jpeg"` both map to JPEG); every other string maps to
`None`. -/
def ImageFormat.fromStr (s : String) : Option ImageFormat :=
  if s = "png" then some .png
  else if s = "jpg" then some .jpeg
  else if s = "jpeg" then some .jpeg
  else if s = "webp" then some .webp
  else if s = "hdr" then some .hdr
  else if s = "avif" then some .avif
  else none

/-- The Rust `ImageFormat::to_str`: canonical tag of the five supported
variants; the catch-all arm renders every other wrapped variant as
`"unkw"`. -/
def ImageFormat.toStr : ImageFormat → String
  | .png => "png"
  | .jpeg => "jpg"
  | .webp => "webp"
  | .hdr => "hdr"
  | .avif => "avif"
  | _ => "unkw"

/-- The Rust `ImageFormat::extension`, which simply delegates to `to_str`. -/
def ImageFormat.extension (f : ImageFormat) : String :=
  f.toStr

/-- The Rust `Default for ImageFormat` instance (`Self::PNG`). -/
def ImageFormat.default : ImageFormat := .png

/-! ## Data model (`images` table and `ImagePath`) -/

/-- One row of the `images` table:
`images(image_identifier uuid, image_format text, computed bool, expires_at timestamptz)`.
The stored format is the raw tag string, exactly as the database holds it. -/
structure DbRow where
  imageIdentifier : Nat
  imageFormat : String
  computed : Bool
  expiresAt : Int
deriving DecidableEq, Repr

/-- The Rust `ImagePath::new(image_folder, image_identifier, image_format)`
produces `image_folder/<hex32(identifier)>.<extension(format)>`; the folder is
fixed configuration and the hex rendering is injective on identifiers, so the
path is modelled by its two determining components. -/
structure ImagePath where
  identifier : Nat
  fmt : ImageFormat
deriving DecidableEq, Repr

/-- The `(bool, DateTime<Utc>, ImageFormat)` triple that
`Database::get_image_location` builds for each fetched row after parsing the
stored tag. -/
structure ActiveRow where
  computed : Bool
  expiresAt : Int
  fmt : ImageFormat
deriving DecidableEq, Repr

/-- The `record.into_iter().map(.. from_str(..).expect(..) ..)` stage of
`Database::get_image_location`: parse every fetched row's tag, panicking
(`none`) if any tag fails `ImageFormat::from_str`. -/
def parseRows : List DbRow → Option (List ActiveRow)
  | [] => some []
  | r :: rest =>
    match ImageFormat.fromStr r.imageFormat, parseRows rest with
    | some f, some l => some (⟨r.computed, r.expiresAt, f⟩ :: l)
    | _, _ => none

/-- Result type of `Database::get_image_location` (`GetImageError` merged with
the `Ok` case). `InternalServerError(sqlx::Error)` is a transport failure of
the SELECT itself and is not modelled (the query result is an input here). -/
inductive GetImageResult where
  | path (p : ImagePath)
  | notComputed
  | notFound
  | foundButNotInFormat (p : ImagePath)
deriving DecidableEq, Repr

/-- The Rust `Database::get_image_location`, given the rows the SELECT fetched
for `file_identifier`. Returns `none` when the function panics (a stored tag
that `from_str` rejects). Otherwise returns the pair of
(was a `CleanExpired` message sent to the sweeper channel, result):
* the sweep message is sent iff some fetched row has `expires_at < max_time`;
* rows are parsed, then only rows with `expires_at > max_time` are retained;
* no survivor: `NotFound`; a survivor in the requested format: its path if
  `computed`, else `NotComputed`; otherwise `FoundButNotInFormat` with the
  first survivor's path. -/
def getImageLocation (rows : List DbRow) (fileIdentifier : Nat)
    (imageFormat : ImageFormat) (maxTime : Int) : Option (Bool × GetImageResult) :=
  let sweep := rows.any (fun r => decide (r.expiresAt < maxTime))
  match parseRows rows with
  | none => none
  | some mapped =>
    let active := mapped.filter (fun a => decide (maxTime < a.expiresAt))
    if active.isEmpty then
      some (sweep, .notFound)
    else
      match active.find? (fun a => decide (a.fmt = imageFormat)) with
      | some a =>
        if a.computed then some (sweep, .path ⟨fileIdentifier, imageFormat⟩)
        else some (sweep, .notComputed)
      | none =>
        some (sweep, .foundButNotInFormat
          ⟨fileIdentifier, (active.headD ⟨false, 0, .png⟩).fmt⟩)

/-! ## TTL policy (`Database::determine_eol`) -/

/-- The Rust `Database::determine_eol(requested, max)`; `Utc::now()` is passed
explicitly as `now`. -/
def determineEol (now : Int) (requested maxTtl : Option Int) : Option Int :=
  if requested.isNone then
    maxTtl.map (fun x => now + x)
  else
    match requested, maxTtl with
    | some r, some m => if r > m then some (now + m) else some (now + r)
    | _, _ => requested.map (fun x => now + x)

example : determineEol 0 (some 5) (some 3) = some 3 := by decide
example : determineEol 0 (some 2) (some 3) = some 2 := by decide
example : determineEol 0 none (some 3) = some 3 := by decide
example : determineEol 0 (some 2) none = some 2 := by decide
example : determineEol 0 none none = none := by decide

/-! ## System state and effect environments -/

/-- The shared mutable state the claims observe: the `images` table and the
object store (files keyed by the `(identifier, format)` pair determining their
path). -/
structure SystemState where
  rows : List DbRow
  files : List (Nat × ImageFormat)
deriving DecidableEq, Repr

/-- Outcome of one `INSERT INTO images ...` statement as reported by sqlx:
success, a primary-key uniqueness violation, or another database error. -/
inductive InsertOutcome where
  | ok
  | conflict
  | dbError
deriving DecidableEq, Repr

/-- The `DatabaseReceiver::image_computed` handler for a
`DatabaseMessage::Computed(id, format)` message:
`UPDATE images SET computed=true WHERE image_identifier=$1 AND image_format=$2`. -/
def markComputed (rows : List DbRow) (id : Nat) (fmt : ImageFormat) : List DbRow :=
  rows.map (fun r =>
    if r.imageIdentifier = id ∧ r.imageFormat = fmt.toStr then
      { r with computed := true }
    else r)

/-- The identifier-minting loop of `Database::save_image`: draw fresh UUIDs
until `file_exists` (a SELECT on `image_identifier`) says the identifier is
unused. The unbounded Rust loop is modelled with the candidate stream as fuel;
`none` stands for the loop not completing within the supplied draws. -/
def mintIdentifier (rows : List DbRow) : List Nat → Option Nat
  | [] => none
  | c :: rest =>
    if rows.any (fun r => decide (r.imageIdentifier = c)) then
      mintIdentifier rows rest
    else
      some c

/-- Effect outcomes for one `Database::save_image` call: the UUID draws of the
minting loop, the SQL outcome of the INSERT, and whether the detached worker's
decode and file write succeed. -/
structure SaveEnv where
  candidates : List Nat
  insertOut : InsertOutcome
  decodeOk : Bool
  writeOk : Bool
deriving DecidableEq, Repr

/-- Result of `Database::save_image`: the returned identifier together with
the state after the detached worker (and the receiver's `image_computed`)
have run, or the surfaced `SaveImageError::InternalServerError`. -/
inductive SaveImageOutcome where
  | okId (id : Nat) (st : SystemState)
  | err
deriving DecidableEq, Repr

/-- The Rust `Database::save_image`, including the eventual effect of its
detached `spawn_blocking` worker. `none` models the request path panicking:
the `image_eol.expect("TODO: OPTIONAL TTLS NOT YET IMPLEMENTED")` when both
TTL inputs are absent (or the minting fuel running out). Mirrors the source:
* mint an identifier with the `file_exists` loop;
* INSERT the row with `computed` defaulted to false and the computed
  expiration; an INSERT error is returned as `InternalServerError`;
* the detached worker: a decode failure panics the worker before any message
  is sent, so the row stays uncomputed and no file appears; a file-write
  failure is only logged, and the worker still sends `Computed`, after which
  the receiver marks the row computed. -/
def saveImage (st : SystemState) (env : SaveEnv) (imageFormat : ImageFormat)
    (apiTtl maxTtl : Option Int) (now : Int) : Option SaveImageOutcome :=
  match mintIdentifier st.rows env.candidates with
  | none => none
  | some uid =>
    match determineEol now apiTtl maxTtl with
    | none => none
    | some eol =>
      match env.insertOut with
      | .ok =>
        let inserted := st.rows ++ [⟨uid, imageFormat.toStr, false, eol⟩]
        if env.decodeOk then
          let files' := if env.writeOk then st.files ++ [(uid, imageFormat)] else st.files
          some (.okId uid ⟨markComputed inserted uid imageFormat, files'⟩)
        else
          some (.okId uid ⟨inserted, st.files⟩)
      | _ => some .err

/-- The detached `tokio::spawn` tail of `Database::save_raw_image`: attempt
the file write (a failure is only logged), then always send `Computed`, after
which the receiver marks the row computed. -/
def saveRawWorker (st : SystemState) (id : Nat) (fmt : ImageFormat)
    (writeOk : Bool) : SystemState :=
  let files' := if writeOk then st.files ++ [(id, fmt)] else st.files
  ⟨markComputed st.rows id fmt, files'⟩

/-- HTTP-level outcome of the `upload` handler in `src/api.rs`. -/
inductive UploadResponse where
  | success (id : Nat)
  | internalError
  | invalidFormat
deriving DecidableEq, Repr

/-- The `upload` handler of `src/api.rs`: sniff the format (an unrecognized
body yields the "Invalid image format..." page), then call
`Database::save_image` with the hard-coded `ImageFormat::PNG` and the client
TTL; a save error yields the "Internal server error..." page. -/
def upload (st : SystemState) (sniffOk : Bool) (env : SaveEnv)
    (ttlSecs : Option Int) (maxTtl : Option Int) (now : Int) :
    Option (UploadResponse × SystemState) :=
  if sniffOk then
    match saveImage st env .png ttlSecs maxTtl now with
    | none => none
    | some (.okId id st') => some (.success id, st')
    | some .err => some (.internalError, st)
  else
    some (.invalidFormat, st)

/-! ## Expiration sweeper (`DatabaseReceiver::clean_expired`) -/

/-- Events of one `clean_expired` pass, in execution order: the atomic
`DELETE .. RETURNING` of all expired computed rows, then one file removal per
returned row. -/
inductive SweepEvent where
  | deleteRows (deleted : List DbRow)
  | removeFile (identifier : Nat) (fmt : ImageFormat)
deriving DecidableEq, Repr

/-- The per-returned-row loop of `clean_expired`: parse the stored tag with
`.expect("INVALID IMAGE FORMAT IN DATABASE")` (a failure panics: `none`) and
remove the file at the derived path (a removal failure is only logged). -/
def removeFileEvents : List DbRow → Option (List SweepEvent)
  | [] => some []
  | r :: rest =>
    match ImageFormat.fromStr r.imageFormat, removeFileEvents rest with
    | some f, some evs => some (.removeFile r.imageIdentifier f :: evs)
    | _, _ => none

/-- The Rust `DatabaseReceiver::clean_expired` over table `rows` at instant
`now`: the SQL `DELETE FROM images WHERE expires_at < $1 AND computed = True
RETURNING ...` atomically removes exactly the expired computed rows, then the
backing file of each returned row is removed. Returns the remaining table and
the event trace, or `none` when the pass panics on an unparseable stored
tag. -/
def cleanExpired (rows : List DbRow) (now : Int) :
    Option (List DbRow × List SweepEvent) :=
  let expired := rows.filter (fun r => decide (r.expiresAt < now) && r.computed)
  let remaining := rows.filter (fun r => !(decide (r.expiresAt < now) && r.computed))
  match removeFileEvents expired with
  | none => none
  | some evs => some (remaining, SweepEvent.deleteRows expired :: evs)

/-! ## Transcode/serve pipeline (`src/transcode.rs`) -/

/-- The Rust `TranscodeTarget` of `src/transcode.rs`. -/
structure TranscodeTarget where
  imageFormat : Option ImageFormat
  imageWidth : Option Nat
  imageHeight : Option Nat
deriving DecidableEq, Repr

/-- Rounding of the nonnegative quotient `a / b` to the nearest natural
(halves up), as `f64::round` behaves on the nonnegative values arising in
`resize_dimensions`: `⌊a / b + 1 / 2⌋ = ⌊(2 a + b) / (2 b)⌋`. -/
def roundDiv (a b : ℕ) : ℕ :=
  (2 * a + b) / (2 * b)

/-- Largest representable `u32`. -/
def U32MAX : ℕ := 4294967295

/-- Dimension semantics of the `image` crate's `DynamicImage::resize`
(`resize_dimensions(width, height, nwidth, nheight, fill = false)`), the
codec primitive that `transcode` in `src/transcode.rs` invokes: with
`ratio = min(nwidth / width, nheight / height)`, the new size is
`(round(width * ratio), round(height * ratio))`, floored at 1 per axis and
clamped at `u32::MAX` — the largest size fitting within the bounds that
preserves the aspect ratio. The crate computes the ratios in `f64`; the model
computes the same quotients exactly (`min` decided by cross-multiplication,
`round(x * n / d)` as `roundDiv (x * n) d`), which agrees with `f64` at the
moderate magnitudes the theorems below evaluate. -/
def resizeDimensions (width height nwidth nheight : ℕ) : ℕ × ℕ :=
  let useW := decide (nwidth * height ≤ nheight * width)
  let nw := if useW then max (roundDiv (width * nwidth) width) 1
            else max (roundDiv (width * nheight) height) 1
  let nh := if useW then max (roundDiv (height * nwidth) width) 1
            else max (roundDiv (height * nheight) height) 1
  if nw > U32MAX then
    (U32MAX, max (roundDiv (height * U32MAX) width) 1)
  else if nh > U32MAX then
    (max (roundDiv (width * U32MAX) height) 1, U32MAX)
  else
    (nw, nh)

/-- Dimensions of the image produced by `transcode` in `src/transcode.rs`:
when a width or a height is requested, the missing bound defaults to the
source's native value and the image is resized with
`DynamicImage::resize(width, height, Lanczos3)`; otherwise the image is
encoded unscaled. -/
def transcodeDims (srcWidth srcHeight : Nat) (settings : TranscodeTarget) : Nat × Nat :=
  if settings.imageWidth.isSome || settings.imageHeight.isSome then
    resizeDimensions srcWidth srcHeight
      (settings.imageWidth.getD srcWidth) (settings.imageHeight.getD srcHeight)
  else
    (srcWidth, srcHeight)

/-- Effect outcomes for one `get_image` call in `src/transcode.rs`: the bytes
a raw object-store read returns and whether it succeeds, whether the source
decode succeeds, whether `transcode` (resize + encode) succeeds and the bytes
it produces, and the SQL outcome of `save_raw_image`'s INSERT. -/
structure GetImageEnv where
  readOk : Bool
  fileBytes : List Nat
  decodeOk : Bool
  transcodeOk : Bool
  transcodedBytes : List Nat
  insertOut : InsertOutcome
deriving DecidableEq, Repr

/-- Result of `get_image` (`TranscoderError` merged with the `Ok` bytes). -/
inductive TranscoderResult where
  | ok (bytes : List Nat)
  | imageError
  | notComputed
  | notFound
  | internalServerError
deriving DecidableEq, Repr

/-- The Rust `get_image` of `src/transcode.rs`, returning the result together
with the table as left by the call (`save_raw_image` inserts the new
derivative row with `computed=false`; its detached write/mark worker is
modelled separately by `saveRawWorker`). `none` models a panic:
an unparseable stored tag inside `get_image_location`, a failed decode on the
resize path (`.expect("file path returned by database was unable to be
opened")`), or `save_raw_image`'s `expect` when both TTL inputs are absent.
Mirrors the source branch by branch:
* target format is `settings.image_format.unwrap_or_default()` (PNG);
* `Ok(path)` with neither dimension requested: raw filesystem read, a read
  error surfacing as `InternalServerError`;
* `Ok(path)` with a dimension requested: decode (panic on failure), then
  `transcode`, an encode failure surfacing as `ImageError`;
* `FoundButNotInFormat`: decode the source derivative (a failure surfaces as
  `InternalServerError`), `transcode` (failure: `ImageError`), then
  `save_raw_image(data, image_id, target, ttl)`; an INSERT error surfaces as
  `InternalServerError` and the bytes are not returned; on success the fresh
  row is inserted and the bytes are returned;
* `NotComputed` / `NotFound` pass through. -/
def getImageM (rows : List DbRow) (imageId : Nat) (settings : TranscodeTarget)
    (ttl maxTtl : Option Int) (now : Int) (env : GetImageEnv) :
    Option (TranscoderResult × List DbRow) :=
  let fmt := settings.imageFormat.getD ImageFormat.default
  match getImageLocation rows imageId fmt now with
  | none => none
  | some (_, .path _) =>
    if settings.imageWidth = none ∧ settings.imageHeight = none then
      if env.readOk then some (.ok env.fileBytes, rows)
      else some (.internalServerError, rows)
    else
      if env.decodeOk then
        if env.transcodeOk then some (.ok env.transcodedBytes, rows)
        else some (.imageError, rows)
      else none
  | some (_, .notComputed) => some (.notComputed, rows)
  | some (_, .notFound) => some (.notFound, rows)
  | some (_, .foundButNotInFormat _) =>
    if env.decodeOk then
      if env.transcodeOk then
        match determineEol now ttl maxTtl with
        | none => none
        | some eol =>
          match env.insertOut with
          | .ok => some (.ok env.transcodedBytes,
              rows ++ [⟨imageId, fmt.toStr, false, eol⟩])
          | _ => some (.internalServerError, rows)
      else some (.imageError, rows)
    else some (.internalServerError, rows)

/-- The `serve_image` handler of `src/api.rs` calls
`transcode::get_image(uuid, query.into(), &state.database, None)`: the lazy
persistence always runs with no client TTL. -/
def serveImageCore (rows : List DbRow) (imageId : Nat) (settings : TranscodeTarget)
    (maxTtl : Option Int) (now : Int) (env : GetImageEnv) :
    Option (TranscoderResult × List DbRow) :=
  getImageM rows imageId settings none maxTtl now env

example : resizeDimensions 200 100 100 100 = (100, 50) := by decide
example : transcodeDims 200 100 ⟨some .png, some 100, some 100⟩ = (100, 50) := by decide
example : transcodeDims 200 100 ⟨none, some 100, none⟩ = (100, 50) := by decide
example : transcodeDims 200 100 ⟨none, none, none⟩ = (200, 100) := by decide
example :
    getImageLocation [⟨9, "png", true, 10⟩] 9 .png 10 = some (false, .notFound) := by decide
example :
    serveImageCore [⟨5, "png", true, 100⟩] 5 ⟨some .jpeg, none, none⟩ (some 10) 50
      ⟨true, [], true, true, [1, 2, 3], .ok⟩
    = some (.ok [1, 2, 3], [⟨5, "png", true, 100⟩, ⟨5, "jpg", false, 60⟩]) := by decide

/-! ## Helper lemmas -/

theorem determineEol_none_some (now m : Int) :
    determineEol now none (some m) = some (now + m) := by
  simp [determineEol]

theorem determineEol_some_none (now r : Int) :
    determineEol now (some r) none = some (now + r) := by
  simp [determineEol]

theorem determineEol_some_some (now r m : Int) :
    determineEol now (some r) (some m) = some (now + min r m) := by
  simp only [determineEol, Option.isNone_some, Bool.false_eq_true, if_false]
  split
  · simp only [Option.some.injEq]
    omega
  · simp only [Option.some.injEq]
    omega

theorem determineEol_none_none (now : Int) :
    determineEol now none none = none := by
  simp [determineEol]

theorem parseRows_isSome_iff (rows : List DbRow) :
    (parseRows rows).isSome ↔ ∀ r ∈ rows, (ImageFormat.fromStr r.imageFormat).isSome := by
  induction rows with
  | nil => simp [parseRows]
  | cons r rest ih =>
    simp only [parseRows, List.mem_cons, forall_eq_or_imp]
    cases hf : ImageFormat.fromStr r.imageFormat with
    | none => simp [hf]
    | some f =>
      cases hp : parseRows rest with
      | none => simp [hf, hp, ← ih]
      | some l => simp [hf, hp, ← ih]

theorem parseRows_mem {rows : List DbRow} {mapped : List ActiveRow}
    (hp : parseRows rows = some mapped) (a : ActiveRow) :
    a ∈ mapped ↔ ∃ r ∈ rows, ImageFormat.fromStr r.imageFormat = some a.fmt
      ∧ r.computed = a.computed ∧ r.expiresAt = a.expiresAt := by
  induction rows generalizing mapped with
  | nil =>
    simp only [parseRows, Option.some.injEq] at hp
    simp [← hp]
  | cons r rest ih =>
    simp only [parseRows] at hp
    cases hf : ImageFormat.fromStr r.imageFormat with
    | none => simp [hf] at hp
    | some f =>
      cases hq : parseRows rest with
      | none => simp [hf, hq] at hp
      | some l =>
        simp only [hf, hq, Option.some.injEq] at hp
        subst hp
        constructor
        · intro ha
          rcases List.mem_cons.mp ha with h | h
          · subst h
            exact ⟨r, List.mem_cons_self r rest, hf, rfl, rfl⟩
          · obtain ⟨r', hr', hfr', hc', he'⟩ := (ih hq).mp h
            exact ⟨r', List.mem_cons_of_mem r hr', hfr', hc', he'⟩
        · rintro ⟨r', hr', hfr', hc', he'⟩
          rcases List.mem_cons.mp hr' with h | h
          · subst h
            rw [hf] at hfr'
            have hfa : f = a.fmt := by injection hfr'
            have : a = ⟨r'.computed, r'.expiresAt, f⟩ := by
              cases a
              simp_all
            simp [this]
          · exact List.mem_cons_of_mem _ ((ih hq).mpr ⟨r', h, hfr', hc', he'⟩)

theorem removeFileEvents_eq_none_iff (l : List DbRow) :
    removeFileEvents l = none ↔ ∃ r ∈ l, ImageFormat.fromStr r.imageFormat = none := by
  induction l with
  | nil => simp [removeFileEvents]
  | cons r rest ih =>
    simp only [removeFileEvents, List.mem_cons]
    cases hf : ImageFormat.fromStr r.imageFormat with
    | none => simp [hf]
    | some f =>
      cases hp : removeFileEvents rest with
      | none =>
        obtain ⟨r', hr', hfr'⟩ := ih.mp hp
        simp only [hf, hp]
        exact iff_of_true trivial ⟨r', Or.inr hr', hfr'⟩
      | some evs =>
        simp only [hf, hp]
        constructor
        · intro hcontra
          exact absurd hcontra (by simp)
        · rintro ⟨r', hr' | hr', hfr'⟩
          · rw [hr'] at hfr'
            rw [hf] at hfr'
            exact Option.noConfusion hfr'
          · have hnone := ih.mpr ⟨r', hr', hfr'⟩
            rw [hp] at hnone
            exact Option.noConfusion hnone

theorem roundDiv_mul (w k : ℕ) (hw : 1 ≤ w) : roundDiv (w * k) w = k := by
  unfold roundDiv
  have h1 : 2 * (w * k) + w = (2 * w) * k + w := by ring
  rw [h1, Nat.mul_add_div (by omega)]
  have h2 : w / (2 * w) = 0 := Nat.div_eq_of_lt (by omega)
  omega

/-! ## Claim C4 -/

/-- C4: the TTL policy of `Database::determine_eol` computes `now + M` when
only the server max TTL `M` is present, `now + R` when only the client TTL
`R` is present, `now + min R M` when both are present, and nothing when both
are absent — in which case `Database::save_image` aborts (its `expect` on the
missing expiration) and no row is created. -/
theorem c4_ttl_policy :
    (∀ now m : Int, determineEol now none (some m) = some (now + m))
  ∧ (∀ now r : Int, determineEol now (some r) none = some (now + r))
  ∧ (∀ now r m : Int, determineEol now (some r) (some m) = some (now + min r m))
  ∧ (∀ now : Int, determineEol now none none = none)
  ∧ (∀ (st : SystemState) (env : SaveEnv) (fmt : ImageFormat) (now : Int),
      saveImage st env fmt none none now = none) := by
  refine ⟨determineEol_none_some, determineEol_some_none, determineEol_some_some,
    determineEol_none_none, ?_⟩
  intro st env fmt now
  unfold saveImage
  cases hm : mintIdentifier st.rows env.candidates with
  | none => rfl
  | some uid => rw [determineEol_none_none]

/-! ## Claim C9 -/

/-- C9: the format registry round-trips: for each of the five supported
formats `f`, `from_str (to_str f) = some f` and `extension f = to_str f`;
`from_str` additionally accepts `"jpeg"` as an alias of JPEG; and `from_str`
of the empty string, and of any string outside the six accepted tags, is
`none`. -/
theorem c9_format_registry_bijection :
    (∀ f : ImageFormat, f ∈ [ImageFormat.png, .jpeg, .webp, .hdr, .avif] →
        ImageFormat.fromStr f.toStr = some f ∧ f.extension = f.toStr)
  ∧ ImageFormat.fromStr "jpeg" = some .jpeg
  ∧ ImageFormat.fromStr "" = none
  ∧ (∀ s : String, s ∉ ["png", "jpg", "jpeg", "webp", "hdr", "avif"] →
      ImageFormat.fromStr s = none) := by
  refine ⟨?_, by decide, by decide, ?_⟩
  · intro f hf
    simp only [List.mem_cons, List.not_mem_nil, or_false] at hf
    rcases hf with rfl | rfl | rfl | rfl | rfl <;> exact ⟨by decide, rfl⟩
  · intro s hs
    simp only [List.mem_cons, List.not_mem_nil, or_false, not_or] at hs
    obtain ⟨h1, h2, h3, h4, h5, h6⟩ := hs
    simp [ImageFormat.fromStr, h1, h2, h3, h4, h5, h6]

/-- Witness for C9 at concrete inputs. -/
theorem c9_format_registry_bijection_witness :
    (ImageFormat.fromStr (ImageFormat.png).toStr = some .png
      ∧ (ImageFormat.png).extension = (ImageFormat.png).toStr)
  ∧ ImageFormat.fromStr "gif" = none :=
  ⟨c9_format_registry_bijection.1 .png (by decide),
   c9_format_registry_bijection.2.2.2 "gif" (by decide)⟩

/-! ## Claim C8 -/

/-- C8 counterexample: with a negative client TTL (`ttl_secs = -5`) and a
configured max TTL of 100 at `now = 0`, the upload succeeds and inserts a row
whose `expires_at = -5` lies strictly in the past, contradicting the claim
that every inserted `expires_at` is strictly in the future for all `i64`
client TTLs. -/
theorem c8_negative_ttl_counterexample :
    determineEol 0 (some (-5)) (some 100) = some (-5)
  ∧ upload ⟨[], []⟩ true ⟨[1], .ok, true, true⟩ (some (-5)) (some 100) 0
      = some (.success 1, ⟨[⟨1, "png", true, -5⟩], [(1, .png)]⟩)
  ∧ ¬ ((0 : Int) < -5) := by decide

/-- C8 as amended: an inserted `expires_at` produced by `determine_eol` is
strictly in the future exactly when the applied TTL duration — `min R M`,
`R`, or `M` according to which inputs are present — is strictly positive;
zero or negative applied TTLs yield an `expires_at` at or before `now`. -/
theorem c8_amended_future_iff_positive :
    ∀ now r m e : Int,
      (determineEol now (some r) (some m) = some e → (now < e ↔ 0 < min r m))
    ∧ (determineEol now (some r) none = some e → (now < e ↔ 0 < r))
    ∧ (determineEol now none (some m) = some e → (now < e ↔ 0 < m)) := by
  intro now r m e
  refine ⟨?_, ?_, ?_⟩
  · intro h
    rw [determineEol_some_some] at h
    have he : e = now + min r m := by injection h with h'; omega
    omega
  · intro h
    rw [determineEol_some_none] at h
    have he : e = now + r := by injection h with h'; omega
    omega
  · intro h
    rw [determineEol_none_some] at h
    have he : e = now + m := by injection h with h'; omega
    omega

/-- Witness for C8's amended theorem at `now = 0`, `R = -5`, `M = 100`. -/
theorem c8_amended_witness :
    ¬ ((0 : Int) < -5) ∧ ((0 : Int) < -5 ↔ 0 < min (-5 : Int) 100) :=
  ⟨by decide, (c8_amended_future_iff_positive 0 (-5) 100 (-5)).1 (by decide)⟩

/-! ## Claim C1 -/

/-- C1: evaluation of the ingest and lazy-persistence workers at a failing
file write. With a successful decode but a failed object-store write, the
`save_image` worker only logs the error and still sends `Computed`, so the
row ends with `computed = true` while the object store holds no file — and
likewise for the `save_raw_image` worker. Only a decode failure (third
conjunct) leaves the row uncomputed, because that worker panics before
sending. This contradicts the claim that a failed write leaves
`computed = false` and that `mark_computed` is never invoked after a failed
write. -/
theorem c1_worker_write_failure_still_marks_computed :
    saveImage ⟨[], []⟩ ⟨[1], .ok, true, false⟩ .png (some 10) none 0
      = some (.okId 1 ⟨[⟨1, "png", true, 10⟩], []⟩)
  ∧ saveRawWorker ⟨[⟨2, "jpg", false, 9⟩], []⟩ 2 .jpeg false
      = ⟨[⟨2, "jpg", true, 9⟩], []⟩
  ∧ saveImage ⟨[], []⟩ ⟨[1], .ok, false, false⟩ .png (some 10) none 0
      = some (.okId 1 ⟨[⟨1, "png", false, 10⟩], []⟩) := by decide

/-! ## Claim C2 -/

/-- C2 counterexample: a primary-key conflict on the metadata INSERT is
surfaced to the caller in both paths. An upload whose INSERT conflicts
returns the "Internal server error" page (no re-mint retry), and the losing
lazy-derivative request returns `InternalServerError` instead of its
transcoded bytes. -/
theorem c2_conflict_surfaced_counterexample :
    upload ⟨[], []⟩ true ⟨[7], .conflict, true, true⟩ (some 10) none 0
      = some (.internalError, ⟨[], []⟩)
  ∧ serveImageCore [⟨5, "png", true, 100⟩] 5 ⟨some .jpeg, none, none⟩ (some 10) 50
        ⟨true, [], true, true, [1, 2, 3], .conflict⟩
      = some (.internalServerError, [⟨5, "png", true, 100⟩]) := by decide

/-- C2 as amended: an INSERT conflict is never recovered locally. The
identifier-minting loop of `save_image` retries only on the pre-insert
existence check; a conflicting INSERT makes `save_image` fail (it can never
return a minted identifier), and in the lazy-derivative race the loser's
conflict is propagated as `InternalServerError` instead of returning its
bytes. -/
theorem c2_amended_conflict_propagates :
    (∀ (st : SystemState) (env : SaveEnv) (fmt : ImageFormat)
        (apiTtl maxTtl : Option Int) (now : Int) (uid : Nat) (stOut : SystemState),
        env.insertOut = .conflict →
        saveImage st env fmt apiTtl maxTtl now ≠ some (.okId uid stOut))
  ∧ (∀ (rows : List DbRow) (imageId : Nat) (settings : TranscodeTarget)
        (m now : Int) (env : GetImageEnv) (b : Bool) (p : ImagePath),
        env.insertOut = .conflict → env.decodeOk = true → env.transcodeOk = true →
        getImageLocation rows imageId (settings.imageFormat.getD ImageFormat.default) now
          = some (b, .foundButNotInFormat p) →
        serveImageCore rows imageId settings (some m) now env
          = some (.internalServerError, rows)) := by
  constructor
  · intro st env fmt apiTtl maxTtl now uid stOut hconf
    unfold saveImage
    cases hm : mintIdentifier st.rows env.candidates with
    | none => simp
    | some u =>
      cases he : determineEol now apiTtl maxTtl with
      | none => simp
      | some eol => simp [hconf]
  · intro rows imageId settings m now env b p hconf hdec htr hdb
    simp [serveImageCore, getImageM, hdb, hdec, htr, hconf, determineEol_none_some]

/-- Witness for C2's amended theorem at concrete inputs. -/
theorem c2_amended_witness :
    saveImage ⟨[], []⟩ ⟨[7], .conflict, true, true⟩ .png (some 10) none 0
      ≠ some (.okId 7 ⟨[], []⟩)
  ∧ serveImageCore [⟨6, "webp", true, 40⟩] 6 ⟨some .png, none, none⟩ (some 3) 20
        ⟨true, [], true, true, [9], .conflict⟩
      = some (.internalServerError, [⟨6, "webp", true, 40⟩]) :=
  ⟨c2_amended_conflict_propagates.1 _ _ _ _ _ _ 7 ⟨[], []⟩ rfl,
   c2_amended_conflict_propagates.2 _ _ _ 3 20 _ false ⟨6, .webp⟩ rfl rfl rfl (by decide)⟩

/-! ## Claim C3 -/

/-- C3 counterexample: a serve request that misses on the target format
persists the new derivative with `expires_at = now + M` (here `50 + 10 = 60`),
not with the source row's expiration (here `100`): the handler passes no
client TTL, so `save_raw_image` recomputes a fresh expiration. -/
theorem c3_lazy_expiry_counterexample :
    serveImageCore [⟨5, "png", true, 100⟩] 5 ⟨some .jpeg, none, none⟩ (some 10) 50
        ⟨true, [], true, true, [1, 2, 3], .ok⟩
      = some (.ok [1, 2, 3], [⟨5, "png", true, 100⟩, ⟨5, "jpg", false, 60⟩])
  ∧ (60 : Int) ≠ 100 := by decide

/-- C3 as amended: on a lazy-derivative miss the newly persisted row's
`expires_at` is computed afresh by the TTL policy with no client TTL —
`now + M` for configured max TTL `M` — independent of the source row's
expiration (and when no max TTL is configured the persistence panics instead
of inserting). -/
theorem c3_amended_lazy_row_fresh_ttl :
    ∀ (rows : List DbRow) (imageId : Nat) (settings : TranscodeTarget)
      (m now : Int) (env : GetImageEnv) (b : Bool) (p : ImagePath),
      env.insertOut = .ok → env.decodeOk = true → env.transcodeOk = true →
      getImageLocation rows imageId (settings.imageFormat.getD ImageFormat.default) now
        = some (b, .foundButNotInFormat p) →
      serveImageCore rows imageId settings (some m) now env
        = some (.ok env.transcodedBytes,
            rows ++ [⟨imageId, (settings.imageFormat.getD ImageFormat.default).toStr,
              false, now + m⟩]) := by
  intro rows imageId settings m now env b p hok hdec htr hdb
  simp [serveImageCore, getImageM, hdb, hdec, htr, hok, determineEol_none_some]

/-- Witness for C3's amended theorem at concrete inputs. -/
theorem c3_amended_witness :
    serveImageCore [⟨8, "png", true, 500⟩] 8 ⟨some .hdr, none, none⟩ (some 7) 100
        ⟨true, [], true, true, [4], .ok⟩
      = some (.ok [4], [⟨8, "png", true, 500⟩, ⟨8, "hdr", false, 107⟩]) :=
  c3_amended_lazy_row_fresh_ttl [⟨8, "png", true, 500⟩] 8 ⟨some .hdr, none, none⟩
    7 100 ⟨true, [], true, true, [4], .ok⟩ false ⟨8, .png⟩ rfl rfl rfl (by decide)

/-! ## Claim C7 -/

/-- C7 counterexample: `DynamicImage::resize` preserves aspect ratio, so a
200×100 source requested at width 100 and height 100 yields a 100×50 image,
not the claimed exact 100×100; and with only `width=100` provided the other
dimension comes out as 50, not the source's native 100. -/
theorem c7_exact_dims_counterexample :
    transcodeDims 200 100 ⟨some .png, some 100, some 100⟩ = (100, 50)
  ∧ ((100, 50) : ℕ × ℕ) ≠ (100, 100)
  ∧ transcodeDims 200 100 ⟨some .png, some 100, none⟩ = (100, 50)
  ∧ (50 : ℕ) ≠ 100 := by decide

/-- C7 as amended: the served dimensions are the aspect-preserving fit of the
source into the requested bounds (missing bounds defaulting to the source's
native value), so the claimed exact `(W, H)` holds exactly when the requested
box has the source's aspect ratio (`W * h = H * w`); and a width-only request
that does not downscale returns the source's native dimensions. -/
theorem c7_amended_aspect_fit :
    ∀ (w h W H : ℕ) (fo : Option ImageFormat),
      1 ≤ w → 1 ≤ h → 1 ≤ W → 1 ≤ H → W ≤ U32MAX → H ≤ U32MAX →
      (W * h = H * w →
        transcodeDims w h ⟨fo, some W, some H⟩ = (W, H))
    ∧ (w ≤ W → w ≤ U32MAX → h ≤ U32MAX →
        transcodeDims w h ⟨fo, some W, none⟩ = (w, h)) := by
  intro w h W H fo hw hh hW hH hWmax hHmax
  constructor
  · intro hasp
    have h1 : roundDiv (w * W) w = W := roundDiv_mul w W hw
    have h2 : h * W = w * H := by rw [Nat.mul_comm h W, hasp, Nat.mul_comm H w]
    have h3 : roundDiv (h * W) w = H := by rw [h2]; exact roundDiv_mul w H hw
    have hcond : decide (W * h ≤ H * w) = true := decide_eq_true (le_of_eq hasp)
    have hnW : ¬ (W > U32MAX) := by omega
    have hnH : ¬ (H > U32MAX) := by omega
    simp only [transcodeDims, resizeDimensions, Option.isSome_some, Bool.true_or,
      if_true, Option.getD_some, hcond, h1, h3]
    rw [Nat.max_eq_left hW, Nat.max_eq_left hH]
    rw [if_neg hnW, if_neg hnH]
  · intro hwW hwmax hhmax
    rcases Nat.eq_or_lt_of_le hwW with heq | hlt
    · subst heq
      have h1 : roundDiv (w * w) w = w := roundDiv_mul w w hw
      have h3 : roundDiv (h * w) w = h := by
        rw [Nat.mul_comm h w]; exact roundDiv_mul w h hw
      have hcond : decide (w * h ≤ h * w) = true :=
        decide_eq_true (le_of_eq (Nat.mul_comm w h))
      have hnw : ¬ (w > U32MAX) := by omega
      have hnh : ¬ (h > U32MAX) := by omega
      simp only [transcodeDims, resizeDimensions, Option.isSome_some, Bool.true_or,
        if_true, Option.getD_some, Option.getD_none, hcond, h1, h3]
      rw [Nat.max_eq_left hw, Nat.max_eq_left hh]
      rw [if_neg hnw, if_neg hnh]
    · have hlt2 : h * w < W * h := by nlinarith
      have hcond : decide (W * h ≤ h * w) = false :=
        decide_eq_false (by omega)
      have h1 : roundDiv (w * h) h = w := by
        rw [Nat.mul_comm w h]; exact roundDiv_mul h w hh
      have h3 : roundDiv (h * h) h = h := roundDiv_mul h h hh
      have hnw : ¬ (w > U32MAX) := by omega
      have hnh : ¬ (h > U32MAX) := by omega
      simp only [transcodeDims, resizeDimensions, Option.isSome_some, Bool.true_or,
        if_true, Option.getD_some, Option.getD_none, hcond, h1, h3,
        Bool.false_eq_true, if_false]
      rw [Nat.max_eq_left hw, Nat.max_eq_left hh]
      rw [if_neg hnw, if_neg hnh]

/-- Witness for C7's amended theorem: an aspect-matching box is hit exactly,
and a width-only upscale request keeps the native size. -/
theorem c7_amended_witness :
    transcodeDims 2 1 ⟨none, some 4, some 2⟩ = (4, 2)
  ∧ transcodeDims 3 2 ⟨none, some 5, none⟩ = (3, 2) :=
  ⟨(c7_amended_aspect_fit 2 1 4 2 none (by decide) (by decide) (by decide) (by decide)
      (by decide) (by decide)).1 (by decide),
   (c7_amended_aspect_fit 3 2 5 1 none (by decide) (by decide) (by decide) (by decide)
      (by decide) (by decide)).2 (by decide) (by decide) (by decide)⟩

/-! ## Claim C6 -/

/-- C6 counterexample: the sweeper's SQL `DELETE .. RETURNING` removes the
row first; the file removal for the returned row is attempted only afterwards
(it is the second event of the trace, the row deletion being the first), so a
row does cease to exist before the removal of its backing file has been
attempted. -/
theorem c6_order_counterexample :
    cleanExpired [⟨4, "png", true, 1⟩] 10
      = some ([], [.deleteRows [⟨4, "png", true, 1⟩], .removeFile 4 .png])
  ∧ ([SweepEvent.deleteRows [⟨4, "png", true, 1⟩], .removeFile 4 .png]).head?
      = some (.deleteRows [⟨4, "png", true, 1⟩])
  ∧ SweepEvent.deleteRows [⟨4, "png", true, 1⟩] ≠ .removeFile 4 .png := by decide

/-- C6 as amended: every cleanup pass deletes exactly the rows with
`expires_at < now` and `computed = true` (the remaining table is exactly the
complement), and the file removals are attempted strictly after the rows have
been deleted: the trace starts with the row deletion and every `removeFile`
event sits at a strictly later position. -/
theorem c6_amended_sweep_semantics :
    ∀ (rows : List DbRow) (now : Int) (remaining : List DbRow)
      (tr : List SweepEvent),
      cleanExpired rows now = some (remaining, tr) →
      (∀ r, r ∈ remaining ↔ r ∈ rows ∧ ¬(r.expiresAt < now ∧ r.computed = true))
    ∧ ∃ deleted evs,
        tr = .deleteRows deleted :: evs
      ∧ (∀ r, r ∈ deleted ↔ r ∈ rows ∧ r.expiresAt < now ∧ r.computed = true)
      ∧ ∀ i n g, tr[i]? = some (.removeFile n g) →
          tr[0]? = some (.deleteRows deleted) ∧ 1 ≤ i := by
  intro rows now remaining tr hc
  simp only [cleanExpired] at hc
  cases hev : removeFileEvents
      (rows.filter fun r => decide (r.expiresAt < now) && r.computed) with
  | none => rw [hev] at hc; cases hc
  | some evs =>
    rw [hev] at hc
    simp only [Option.some.injEq, Prod.mk.injEq] at hc
    obtain ⟨hrem, htr⟩ := hc
    subst hrem
    subst htr
    constructor
    · intro r
      rw [List.mem_filter]
      cases hcomp : r.computed <;> by_cases hlt : r.expiresAt < now <;>
        simp [hcomp, hlt]
    · refine ⟨rows.filter (fun r => decide (r.expiresAt < now) && r.computed), evs,
        rfl, fun r => ?_, fun i n g hi => ⟨by simp, ?_⟩⟩
      · rw [List.mem_filter]
        cases hcomp : r.computed <;> by_cases hlt : r.expiresAt < now <;>
          simp [hcomp, hlt]
      · cases i with
        | zero => simp at hi
        | succ k => omega

/-- Witness for C6's amended theorem: the remaining-table characterization at
the swept row of a concrete pass. -/
theorem c6_amended_witness :
    (⟨4, "png", true, 1⟩ : DbRow) ∈ ([] : List DbRow) ↔
      (⟨4, "png", true, 1⟩ : DbRow) ∈ [(⟨4, "png", true, 1⟩ : DbRow)]
        ∧ ¬((⟨4, "png", true, 1⟩ : DbRow).expiresAt < 10
            ∧ (⟨4, "png", true, 1⟩ : DbRow).computed = true) :=
  (c6_amended_sweep_semantics [⟨4, "png", true, 1⟩] 10 []
    [.deleteRows [⟨4, "png", true, 1⟩], .removeFile 4 .png] (by decide)).1
    ⟨4, "png", true, 1⟩

/-! ## Claim C10 -/

theorem getImageLocation_isSome_of_parse {rows : List DbRow}
    {mapped : List ActiveRow} (fid : Nat) (fmt : ImageFormat) (now : Int)
    (hp : parseRows rows = some mapped) :
    (getImageLocation rows fid fmt now).isSome := by
  unfold getImageLocation
  rw [hp]
  dsimp only
  split
  · rfl
  · split
    · split <;> rfl
    · rfl

theorem getImageLocation_eq_none_iff (rows : List DbRow) (fid : Nat)
    (fmt : ImageFormat) (now : Int) :
    getImageLocation rows fid fmt now = none ↔ parseRows rows = none := by
  constructor
  · intro h
    cases hp : parseRows rows with
    | none => rfl
    | some mapped =>
      have hs := getImageLocation_isSome_of_parse fid fmt now hp
      rw [h] at hs
      simp at hs
  · intro hp
    unfold getImageLocation
    rw [hp]

theorem cleanExpired_eq_none_iff (rows : List DbRow) (now : Int) :
    cleanExpired rows now = none ↔
      removeFileEvents (rows.filter fun r => decide (r.expiresAt < now) && r.computed)
        = none := by
  cases hev : removeFileEvents
      (rows.filter fun r => decide (r.expiresAt < now) && r.computed) with
  | none => simp [cleanExpired, hev]
  | some evs => simp [cleanExpired, hev]

/-- C10 as amended: `get_image_location` panics exactly when some fetched row
for the identifier carries a tag `from_str` rejects, and `clean_expired`
panics exactly when some expired computed row does; when every stored tag
parses as a canonical tag (in particular when every tag was produced by
`to_str` from one of the five supported formats — though not from the other
wrapped variants, which `to_str` renders as the unparseable `"unkw"`),
neither operation panics. -/
theorem c10_amended_panic_characterization :
    ∀ (rows : List DbRow) (fid : Nat) (fmt : ImageFormat) (now : Int),
      (getImageLocation rows fid fmt now = none ↔
        ∃ r ∈ rows, ImageFormat.fromStr r.imageFormat = none)
    ∧ (cleanExpired rows now = none ↔
        ∃ r ∈ rows, (r.expiresAt < now ∧ r.computed = true)
          ∧ ImageFormat.fromStr r.imageFormat = none)
    ∧ ((∀ r ∈ rows, (ImageFormat.fromStr r.imageFormat).isSome) →
        (getImageLocation rows fid fmt now).isSome
          ∧ (cleanExpired rows now).isSome) := by
  intro rows fid fmt now
  have h1 : getImageLocation rows fid fmt now = none ↔
      ∃ r ∈ rows, ImageFormat.fromStr r.imageFormat = none := by
    rw [getImageLocation_eq_none_iff]
    constructor
    · intro h
      by_contra hno
      push_neg at hno
      have hall : ∀ r ∈ rows, (ImageFormat.fromStr r.imageFormat).isSome :=
        fun r hr => Option.isSome_iff_ne_none.mpr (hno r hr)
      have hs := (parseRows_isSome_iff rows).mpr hall
      rw [h] at hs
      simp at hs
    · rintro ⟨r, hr, hbad⟩
      cases hps : parseRows rows with
      | none => rfl
      | some mapped =>
        have := (parseRows_isSome_iff rows).mp (by rw [hps]; rfl) r hr
        rw [hbad] at this
        simp at this
  have h2 : cleanExpired rows now = none ↔
      ∃ r ∈ rows, (r.expiresAt < now ∧ r.computed = true)
        ∧ ImageFormat.fromStr r.imageFormat = none := by
    rw [cleanExpired_eq_none_iff, removeFileEvents_eq_none_iff]
    constructor
    · rintro ⟨r, hr, hbad⟩
      rw [List.mem_filter] at hr
      obtain ⟨hmem, hp⟩ := hr
      refine ⟨r, hmem, ?_, hbad⟩
      simpa [Bool.and_eq_true, decide_eq_true_iff] using hp
    · rintro ⟨r, hmem, ⟨hlt, hcomp⟩, hbad⟩
      exact ⟨r, List.mem_filter.mpr ⟨hmem, by simp [hlt, hcomp]⟩, hbad⟩
  refine ⟨h1, h2, fun hall => ⟨?_, ?_⟩⟩
  · rw [Option.isSome_iff_ne_none]
    intro h
    obtain ⟨r, hr, hbad⟩ := h1.mp h
    have := hall r hr
    rw [hbad] at this
    simp at this
  · rw [Option.isSome_iff_ne_none]
    intro h
    obtain ⟨r, hr, _, hbad⟩ := h2.mp h
    have := hall r hr
    rw [hbad] at this
    simp at this

/-- C10 counterexample: the tag `"unkw"` is produced by `to_str` (from the
GIF variant of the wrapped enum) and yet both operations panic on a row
carrying it, so "all stored tags produced by `to_str`" does not make the
panic branch unreachable. -/
theorem c10_unkw_counterexample :
    ImageFormat.toStr .gif = "unkw"
  ∧ getImageLocation [⟨3, ImageFormat.toStr .gif, true, 10⟩] 3 .png 5 = none
  ∧ cleanExpired [⟨3, ImageFormat.toStr .gif, true, 1⟩] 5 = none := by decide

/-- Witness for C10's amended theorem: a concrete unparseable tag makes the
lookup panic. -/
theorem c10_amended_witness :
    getImageLocation [⟨3, "zzz", true, 10⟩] 3 .png 5 = none :=
  (c10_amended_panic_characterization [⟨3, "zzz", true, 10⟩] 3 .png 5).1.mpr
    ⟨⟨3, "zzz", true, 10⟩, List.mem_singleton.mpr rfl, by decide⟩

/-! ## Claim C5 -/

/-- C5 counterexample: a sole matching computed row whose `expires_at` equals
`now` is dropped, not retained — the lookup filter keeps only rows with
`expires_at > now`, so the result is `NotFound` instead of the row's path. -/
theorem c5_boundary_counterexample :
    getImageLocation [⟨9, "png", true, 10⟩] 9 .png 10 = some (false, .notFound)
  ∧ GetImageResult.notFound ≠ .path ⟨9, .png⟩ := by decide

/-- C5 as amended: the lookup retains exactly the rows with
`expires_at > now` (a row with `expires_at = now` counts as expired): if no
row is strictly in the future the result is `NotFound`; a surviving row in
the target format yields its path when computed and `NotYetComputed`
otherwise; and when survivors exist but none is in the target format, the
first surviving row becomes the transcode source. -/
theorem c5_amended_lookup_semantics :
    ∀ (rows : List DbRow) (fid : Nat) (tfmt : ImageFormat) (now : Int),
      (parseRows rows).isSome →
      ( (∀ r ∈ rows, r.expiresAt ≤ now) →
          ∃ b, getImageLocation rows fid tfmt now = some (b, .notFound) )
    ∧ ( ∀ r ∈ rows, ImageFormat.fromStr r.imageFormat = some tfmt →
          (∀ r' ∈ rows, ImageFormat.fromStr r'.imageFormat = some tfmt → r' = r) →
          now < r.expiresAt →
          ( (r.computed = true →
              ∃ b, getImageLocation rows fid tfmt now = some (b, .path ⟨fid, tfmt⟩))
          ∧ (r.computed = false →
              ∃ b, getImageLocation rows fid tfmt now = some (b, .notComputed)) ) )
    ∧ ( (∀ r ∈ rows, ImageFormat.fromStr r.imageFormat = some tfmt →
            r.expiresAt ≤ now) →
        (∃ r ∈ rows, now < r.expiresAt) →
          ∃ b g, getImageLocation rows fid tfmt now
              = some (b, .foundButNotInFormat ⟨fid, g⟩)
            ∧ ∃ r ∈ rows, ImageFormat.fromStr r.imageFormat = some g
                ∧ now < r.expiresAt ) := by
  intro rows fid tfmt now hsome
  obtain ⟨mapped, hp⟩ := Option.isSome_iff_exists.mp hsome
  refine ⟨?_, ?_, ?_⟩
  · -- everything at or before `now` is dropped: NotFound
    intro hall
    refine ⟨rows.any (fun r => decide (r.expiresAt < now)), ?_⟩
    unfold getImageLocation
    rw [hp]
    dsimp only
    have hnil : mapped.filter (fun a => decide (now < a.expiresAt)) = [] := by
      rw [List.filter_eq_nil_iff]
      intro a ha
      obtain ⟨r, hr, _, _, he⟩ := (parseRows_mem hp a).mp ha
      have hle := hall r hr
      simp only [decide_eq_true_eq]
      omega
    rw [hnil]
    rfl
  · -- a unique surviving row in the target format decides the result
    intro r hr hfr huniq hlt
    have hmem : (⟨r.computed, r.expiresAt, tfmt⟩ : ActiveRow) ∈ mapped :=
      (parseRows_mem hp _).mpr ⟨r, hr, hfr, rfl, rfl⟩
    have hact : (⟨r.computed, r.expiresAt, tfmt⟩ : ActiveRow) ∈
        mapped.filter (fun a => decide (now < a.expiresAt)) :=
      List.mem_filter.mpr ⟨hmem, by simp [hlt]⟩
    have hne : mapped.filter (fun a => decide (now < a.expiresAt)) ≠ [] :=
      List.ne_nil_of_mem hact
    have hfindSome : ((mapped.filter (fun a => decide (now < a.expiresAt))).find?
        (fun a => decide (a.fmt = tfmt))).isSome := by
      rw [List.find?_isSome]
      exact ⟨_, hact, by simp⟩
    obtain ⟨x, hx⟩ := Option.isSome_iff_exists.mp hfindSome
    have hxmem : x ∈ mapped.filter (fun a => decide (now < a.expiresAt)) :=
      List.mem_of_find?_eq_some hx
    have hxp := List.find?_some hx
    have hxfmt : x.fmt = tfmt := by simpa using hxp
    have hxmapped : x ∈ mapped := (List.mem_filter.mp hxmem).1
    obtain ⟨r', hr', hfr', hc', he'⟩ := (parseRows_mem hp x).mp hxmapped
    have hrr : r' = r := huniq r' hr' (by rw [hfr', hxfmt])
    subst hrr
    have hxval : x = ⟨r'.computed, r'.expiresAt, tfmt⟩ := by
      cases x
      simp_all
    cases hAc : mapped.filter (fun a => decide (now < a.expiresAt)) with
    | nil => exact absurd hAc hne
    | cons a0 rest0 =>
      rw [hAc] at hx
      constructor
      · intro hcomp
        refine ⟨rows.any (fun r => decide (r.expiresAt < now)), ?_⟩
        unfold getImageLocation
        rw [hp]
        dsimp only
        rw [hAc]
        simp only [List.isEmpty_cons, Bool.false_eq_true, if_false, hx, hxval,
          hcomp, if_true]
      · intro hcomp
        refine ⟨rows.any (fun r => decide (r.expiresAt < now)), ?_⟩
        unfold getImageLocation
        rw [hp]
        dsimp only
        rw [hAc]
        simp only [List.isEmpty_cons, Bool.false_eq_true, if_false, hx, hxval,
          hcomp, Bool.false_eq_true, if_false]
  · -- survivors exist but none in the target format: the first survivor is
    -- the transcode source
    intro hnone hsurv
    obtain ⟨r0, hr0, hlt0⟩ := hsurv
    have hf0 : (ImageFormat.fromStr r0.imageFormat).isSome :=
      (parseRows_isSome_iff rows).mp hsome r0 hr0
    obtain ⟨f0, hf0⟩ := Option.isSome_iff_exists.mp hf0
    have ha0 : (⟨r0.computed, r0.expiresAt, f0⟩ : ActiveRow) ∈ mapped :=
      (parseRows_mem hp _).mpr ⟨r0, hr0, hf0, rfl, rfl⟩
    have hact0 : (⟨r0.computed, r0.expiresAt, f0⟩ : ActiveRow) ∈
        mapped.filter (fun a => decide (now < a.expiresAt)) :=
      List.mem_filter.mpr ⟨ha0, by simp [hlt0]⟩
    have hne : mapped.filter (fun a => decide (now < a.expiresAt)) ≠ [] :=
      List.ne_nil_of_mem hact0
    have hfind : (mapped.filter (fun a => decide (now < a.expiresAt))).find?
        (fun a => decide (a.fmt = tfmt)) = none := by
      rw [List.find?_eq_none]
      intro x hxmem
      simp only [decide_eq_true_eq]
      intro hxf
      have hxmapped := (List.mem_filter.mp hxmem).1
      have hxlive : now < x.expiresAt :=
        of_decide_eq_true (List.mem_filter.mp hxmem).2
      obtain ⟨r', hr', hfr', _, he'⟩ := (parseRows_mem hp x).mp hxmapped
      have hle := hnone r' hr' (by rw [hfr', hxf])
      omega
    cases hAc : mapped.filter (fun a => decide (now < a.expiresAt)) with
    | nil => exact absurd hAc hne
    | cons a0 rest0 =>
      rw [hAc] at hfind
      refine ⟨rows.any (fun r => decide (r.expiresAt < now)), a0.fmt, ?_, ?_⟩
      · unfold getImageLocation
        rw [hp]
        dsimp only
        rw [hAc]
        simp only [List.isEmpty_cons, Bool.false_eq_true, if_false, hfind,
          List.headD_cons]
      · have ha0mem : a0 ∈ mapped.filter (fun a => decide (now < a.expiresAt)) := by
          rw [hAc]
          exact List.mem_cons_self a0 rest0
        have hlive : now < a0.expiresAt :=
          of_decide_eq_true (List.mem_filter.mp ha0mem).2
        obtain ⟨r', hr', hfr', _, he'⟩ :=
          (parseRows_mem hp a0).mp (List.mem_filter.mp ha0mem).1
        exact ⟨r', hr', hfr', by omega⟩

/-- Witness for C5's amended theorem: a sole computed row strictly in the
future in the requested format is served. -/
theorem c5_amended_witness :
    ∃ b, getImageLocation [⟨7, "png", true, 100⟩] 7 .png 50
      = some (b, .path ⟨7, .png⟩) :=
  ((c5_amended_lookup_semantics [⟨7, "png", true, 100⟩] 7 .png 50 (by decide)).2.1
    ⟨7, "png", true, 100⟩ (List.mem_singleton.mpr rfl) (by decide)
    (fun r' hr' _ => List.mem_singleton.mp hr') (by decide)).1 rfl
